import Mathlib

/-!
Verification development for the `ProxyScraper` article-extraction core
(`newspaper/proxy_scraper.py`).  Texts are modelled as `List Char`
(Python `str`, restricted to the ASCII range for whitespace and case
handling).  The external collaborators (proxy transport, markup parser,
serializer, generic fallback extractor) are modelled as components of an
`Env` record, exactly as the specification designates them as external.
-/

set_option maxRecDepth 400000

namespace NewspaperProxyScraper

/-- The Python regex class `\s` (and `str.strip()`), restricted to the ASCII
whitespace characters `' '`, `'\t'`, `'\n'`, `'\r'`, `'\x0b'`, `'\x0c'`. -/
def isPySpace (c : Char) : Bool :=
  c = ' ' || c = '\t' || c = '\n' || c = '\r' || c = '\x0b' || c = '\x0c'

/-- One pass of `re.sub(r'\s+', ' ', text)`: every maximal run of whitespace
characters is replaced by a single space.  The boolean records whether we are
inside a whitespace run whose replacement space was already emitted. -/
def collapseWSAux : Bool → List Char → List Char
  | _, [] => []
  | inRun, c :: cs =>
    if isPySpace c then
      if inRun then collapseWSAux true cs
      else ' ' :: collapseWSAux true cs
    else c :: collapseWSAux false cs

/-- `re.sub(r'\s+', ' ', text)`. -/
def collapseWS (l : List Char) : List Char := collapseWSAux false l

/-- Index of the last `'\n'` in a list, if any. -/
def lastNewlineIdx : List Char → Option Nat
  | [] => none
  | c :: cs =>
    match lastNewlineIdx cs with
    | some m => some (m + 1)
    | none => if c = '\n' then some 0 else none

/-- `re.sub(r'\n\s*\n', '\n\n', text)`.  A match starts at a `'\n'`; the
greedy `\s*` followed by the final `'\n'` extends to the last `'\n'` of the
current whitespace run.  The `Nat` argument is the number of already-consumed
characters of the match still to be skipped (the scan resumes after the
match, as `re.sub` does). -/
def mergeBlankLinesAux : Nat → List Char → List Char
  | _, [] => []
  | skip + 1, _ :: cs => mergeBlankLinesAux skip cs
  | 0, c :: cs =>
    if c = '\n' then
      match lastNewlineIdx (cs.takeWhile isPySpace) with
      | some m => '\n' :: '\n' :: mergeBlankLinesAux (m + 1) cs
      | none => c :: mergeBlankLinesAux 0 cs
    else c :: mergeBlankLinesAux 0 cs

/-- `re.sub(r'\n\s*\n', '\n\n', text)`. -/
def mergeBlankLines (l : List Char) : List Char := mergeBlankLinesAux 0 l

/-- Case-insensitive "starts with", the way `re.IGNORECASE` compares letters. -/
def ciStartsWith : List Char → List Char → Bool
  | [], _ => true
  | _ :: _, [] => false
  | p :: ps, c :: cs => (p.toLower == c.toLower) && ciStartsWith ps cs

def phrase1 : List Char := "continue reading".data
def phrase2 : List Char := "read more".data
def phrase3 : List Char := "more for you".data
def phrase4 : List Char := "advertisement".data

/-- `re.sub(r'(?i)continue reading|read more|more for you|advertisement', '', text)`:
leftmost scan; at each position the alternatives are tried in order and a
match is deleted, the scan resuming after it.  The `Nat` argument is the
number of still-to-be-skipped characters of the current match. -/
def removePhrasesAux : Nat → List Char → List Char
  | _, [] => []
  | skip + 1, _ :: cs => removePhrasesAux skip cs
  | 0, c :: cs =>
    if ciStartsWith phrase1 (c :: cs) then removePhrasesAux (phrase1.length - 1) cs
    else if ciStartsWith phrase2 (c :: cs) then removePhrasesAux (phrase2.length - 1) cs
    else if ciStartsWith phrase3 (c :: cs) then removePhrasesAux (phrase3.length - 1) cs
    else if ciStartsWith phrase4 (c :: cs) then removePhrasesAux (phrase4.length - 1) cs
    else c :: removePhrasesAux 0 cs

def removePhrases (l : List Char) : List Char := removePhrasesAux 0 l

/-- Python `str.strip()`. -/
def pyStrip (l : List Char) : List Char :=
  ((l.dropWhile isPySpace).reverse.dropWhile isPySpace).reverse

/-- The `clean_text` closure of `ProxyScraper.extract_article`:
`if not text: return ""`, then the two whitespace regex passes, then the
case-insensitive boilerplate-phrase removal, then `strip()`. -/
def clean_text (text : List Char) : List Char :=
  if text.isEmpty then []
  else pyStrip (removePhrases (collapseWS (mergeBlankLines text)))

/-- Decides whether any of the four boilerplate phrases occurs (case
insensitively) somewhere in the text. -/
def hasPhrase : List Char → Bool
  | [] => false
  | c :: cs =>
    ciStartsWith phrase1 (c :: cs) || ciStartsWith phrase2 (c :: cs) ||
    ciStartsWith phrase3 (c :: cs) || ciStartsWith phrase4 (c :: cs) || hasPhrase cs

/-- Decides that no two adjacent characters are both whitespace. -/
def noTwoSpaces : List Char → Bool
  | c :: c' :: cs => (!(isPySpace c && isPySpace c')) && noTwoSpaces (c' :: cs)
  | _ => true

/-- The BeautifulSoup document tree: element nodes with a tag, an attribute
list and children, and text nodes (`NavigableString`). -/
inductive Node where
  | text (s : List Char)
  | elem (tag : String) (attrs : List (String × String)) (children : List Node)

def tagOf : Node → Option String
  | .text _ => none
  | .elem t _ _ => some t

def childrenOf : Node → List Node
  | .text _ => []
  | .elem _ _ cs => cs

def attrOf (n : Node) (key : String) : Option String :=
  match n with
  | .text _ => none
  | .elem _ attrs _ => (attrs.find? (fun kv => kv.1 == key)).map (fun kv => kv.2)

/-- Splits an attribute value on whitespace, as HTML multi-valued `class`
attributes are interpreted. -/
def splitWords (cur : List Char) : List Char → List (List Char)
  | [] => if cur.isEmpty then [] else [cur.reverse]
  | c :: cs =>
    if isPySpace c then
      if cur.isEmpty then splitWords [] cs else cur.reverse :: splitWords [] cs
    else splitWords (c :: cur) cs

def classesOf (n : Node) : List (List Char) :=
  match attrOf n "class" with
  | some v => splitWords [] v.data
  | none => []

mutual
/-- `element.get_text()`: concatenation of all contained strings in document
order. -/
def getText : Node → List Char
  | .text s => s
  | .elem _ _ cs => getTextL cs
def getTextL : List Node → List Char
  | [] => []
  | n :: ns => getText n ++ getTextL ns
end

def unwantedTags : List String := ["script", "style", "iframe", "noscript", "form"]

mutual
/-- Text of a node with every subtree rooted at a `script`/`style`/`iframe`/
`noscript`/`form` descendant removed: the effect on `get_text()` of
`for unwanted in content.find_all([...]): unwanted.decompose()`. -/
def prunedText : Node → List Char
  | .text s => s
  | .elem t _ cs => if unwantedTags.contains t then [] else prunedTextL cs
def prunedTextL : List Node → List Char
  | [] => []
  | n :: ns => prunedText n ++ prunedTextL ns
end

/-- `content.get_text()` after the `find_all`/`decompose` loop: `find_all`
visits descendants only, so the node itself is kept even if its own tag is in
the unwanted list. -/
def getTextPruned : Node → List Char
  | .text s => s
  | .elem _ _ cs => prunedTextL cs

/-- The CSS selectors the scraper uses: a tag name (`article`), a class
(`.article-content`), an id (`#main-content`), an exact attribute value
(`[itemprop="articleBody"]`), or a descendant combination (`main article`). -/
inductive Sel where
  | tag (t : String)
  | cls (c : String)
  | idSel (i : String)
  | attrEq (key val : String)
  | desc (anc target : Sel)
deriving DecidableEq

def matchesSel (n : Node) : Sel → Bool
  | .tag t => tagOf n == some t
  | .cls c => (classesOf n).contains c.data
  | .idSel i => attrOf n "id" == some i
  | .attrEq k v => attrOf n k == some v
  | .desc _ _ => false

mutual
/-- All nodes of a subtree (the subtree root included) matching a simple
selector, in document (pre-)order — `soup.select` for a non-combinator
selector. -/
def selAll (s : Sel) : Node → List Node
  | .text c => if matchesSel (.text c) s then [.text c] else []
  | .elem t a cs =>
    (if matchesSel (.elem t a cs) s then [.elem t a cs] else []) ++ selAllL s cs
def selAllL (s : Sel) : List Node → List Node
  | [] => []
  | n :: ns => selAll s n ++ selAllL s ns
end

mutual
/-- `soup.select` for a descendant combinator `anc target`: nodes matching
`target` having a strict ancestor matching `anc`, in document order. -/
def selDesc (anc target : Sel) (under : Bool) : Node → List Node
  | .text c => if under && matchesSel (.text c) target then [.text c] else []
  | .elem t a cs =>
    (if under && matchesSel (.elem t a cs) target then [.elem t a cs] else []) ++
      selDescL anc target (under || matchesSel (.elem t a cs) anc) cs
def selDescL (anc target : Sel) (under : Bool) : List Node → List Node
  | [] => []
  | n :: ns => selDesc anc target under n ++ selDescL anc target under ns
end

/-- `soup.select(selector)`. -/
def select (soup : Node) : Sel → List Node
  | .desc anc target => selDesc anc target false soup
  | s => selAll s soup

/-- `soup.select_one(selector)` / `soup.find(tag)`. -/
def selectOne (soup : Node) (s : Sel) : Option Node := (select soup s).head?

/-- Case-insensitive substring test: `re.compile(pattern, re.I).search` for
the literal patterns of the noise tables. -/
def ciSubstr (pat : List Char) : List Char → Bool
  | [] => ciStartsWith pat []
  | c :: cs => ciStartsWith pat (c :: cs) || ciSubstr pat cs

mutual
/-- A node located by a path of child indices. -/
def getN? : Node → List Nat → Option Node
  | n, [] => some n
  | .text _, _ :: _ => none
  | .elem _ _ cs, i :: p => getL? (i :: p) cs
def getL? : List Nat → List Node → Option Node
  | [], _ => none
  | 0 :: p, c :: _ => getN? c p
  | (i + 1) :: p, _ :: cs => getL? (i :: p) cs
  | _ :: _, [] => none
end

mutual
/-- `element.decompose()` for the element at the given (nonempty) path:
removes that subtree.  An invalid or empty path leaves the tree unchanged. -/
def removeAtN : Node → List Nat → Node
  | n, [] => n
  | .text s, _ :: _ => .text s
  | .elem t a cs, i :: p => .elem t a (removeAtL (i :: p) cs)
def removeAtL : List Nat → List Node → List Node
  | _, [] => []
  | [0], _ :: cs => cs
  | 0 :: p :: ps, c :: cs => removeAtN c (p :: ps) :: cs
  | (i + 1) :: p, c :: cs => c :: removeAtL (i :: p) cs
  | [], cs => cs
end

def noiseAncestorTags : List String := ["button", "a", "div", "section"]

/-- `parent.name in ['button', 'a', 'div', 'section']`. -/
def isNoiseAncestor (n : Node) : Bool :=
  match tagOf n with
  | some tg => noiseAncestorTags.contains tg
  | none => false

/-- The ancestor-deletion `while` loop of the text-pattern pass, with the
path given innermost-last but consumed in reverse (`rp` is the reversed
path, so dropping the last path component is dropping the head of `rp`).  Returns
the updated tree and the outermost deleted path, if any deletion happened.
`get_text` is recomputed on the updated tree at every step, as `decompose`
mutates the tree before the next loop test. -/
def walkUpR (t : Node) : List Nat → Option (List Nat) → Node × Option (List Nat)
  | [], acc => (t, acc)
  | r :: rp', acc =>
    match getN? t (r :: rp').reverse with
    | none => (t, acc)
    | some n =>
      if isNoiseAncestor n && decide ((getText n).length < 1000) then
        walkUpR (removeAtN t (r :: rp').reverse) rp' (some (r :: rp').reverse)
      else (t, acc)

/-- The `while parent and parent.name in [...] and len(parent.get_text()) < 1000`
walk of `remove_overlays_and_clean_content`, started at the element at path
`p` (the parent of a matched text node).  The walk deletes the element and
continues from its former parent (`p.dropLast`). -/
def walkUp (t : Node) (p : List Nat) (acc : Option (List Nat)) :
    Node × Option (List Nat) :=
  walkUpR t p.reverse acc

mutual
/-- Paths (in document order) of the text nodes whose content matches the
pattern case-insensitively: `soup.find_all(string=re.compile(pattern, re.I))`. -/
def txtPaths (pat : List Char) : Node → List (List Nat)
  | .text s => if ciSubstr pat s then [[]] else []
  | .elem _ _ cs => txtPathsL pat 0 cs
def txtPathsL (pat : List Char) (i : Nat) : List Node → List (List Nat)
  | [] => []
  | c :: cs => (txtPaths pat c).map (fun p => i :: p) ++ txtPathsL pat (i + 1) cs
end

mutual
def nodeCount : Node → Nat
  | .text _ => 1
  | .elem _ _ cs => 1 + nodeCountL cs
def nodeCountL : List Node → Nat
  | [] => 0
  | n :: ns => nodeCount n + nodeCountL ns
end

/-- One text pattern of the text-pattern pass: the matched text nodes are
walked in document order; a node that an earlier walk already deleted is
skipped (its `parent` is gone).  `s` counts the processed matches that are
still present, so the next one to process is the `s`-th match of the current
tree; a deletion removes the processed node and possibly other matches, and
`s` is recomputed over the surviving earlier matches.  `fuel` bounds the
iteration count (every step either advances `s` or deletes a node, so the
initial fuel below is always sufficient). -/
def runPattern (pat : List Char) : Nat → Node → Nat → Node
  | 0, t, _ => t
  | fuel + 1, t, s =>
    let ms := txtPaths pat t
    if hs : s < ms.length then
      match walkUpR t (ms.get ⟨s, hs⟩).dropLast.reverse none with
      | (t', none) => runPattern pat fuel t' (s + 1)
      | (t', some q) =>
          runPattern pat fuel t'
            (((ms.take s).filter (fun r => !(q.isPrefixOf r))).length)
    else t

mutual
/-- Removes every element of the subtree (the root excluded, as `find_all`
searches descendants only) satisfying the predicate, together with its whole
subtree: `for element in soup.find_all(...): element.decompose()`. -/
def removeMatchingChildren (p : Node → Bool) : Node → Node
  | .text s => .text s
  | .elem t a cs => .elem t a (removeMatchingL p cs)
def removeMatchingL (p : Node → Bool) : List Node → List Node
  | [] => []
  | c :: cs => (if p c then [] else [removeMatchingChildren p c]) ++ removeMatchingL p cs
end

def idPatterns : List (List Char) :=
  ["continue-reading".data, "read-more".data, "moreButton".data, "more-content".data,
   "below-article".data, "bottom-article".data, "mid-article".data,
   "article-interruption".data, "ad-insertion".data, "advertisement".data,
   "sponsored-content".data, "taboola".data, "outbrain".data, "related-articles".data,
   "suggested-content".data, "newsletter-signup".data, "subscription-prompt".data,
   "more-for-you".data, "trending-stories".data]

def classPatterns : List (List Char) :=
  ["continue-reading".data, "read-more-button".data, "article-break".data,
   "article-interstitial".data, "ad-break".data, "sponsored-content".data,
   "newsletter-unit".data, "subscription-unit".data, "paywall-container".data,
   "below-article-content".data, "article-interruption".data, "story-interrupt".data,
   "mid-article-unit".data, "article-divide".data, "more-for-you".data,
   "content-separation".data, "story-break".data, "loading-block".data]

def textPatterns : List (List Char) :=
  ["continue reading".data, "read more".data, "more for you".data,
   "sponsored content".data, "advertisement".data, "recommended".data,
   "popular stories".data, "trending now".data, "you might like".data,
   "more stories".data, "more articles".data, "keep reading".data, "load more".data]

/-- `soup.find_all(id=re.compile(pattern, re.I))` membership test. -/
def matchIdPat (pat : List Char) (n : Node) : Bool :=
  match attrOf n "id" with
  | some v => ciSubstr pat v.data
  | none => false

/-- `soup.find_all(class_=re.compile(pattern, re.I))` membership test: the
regex is tried against each class of the element. -/
def matchClassPat (pat : List Char) (n : Node) : Bool :=
  (classesOf n).any (fun w => ciSubstr pat w)

/-- The three removal passes of `remove_overlays_and_clean_content` on the
parsed tree: id patterns, class patterns, then the text-pattern ancestor
walks. -/
def stripNoise (t : Node) : Node :=
  let t1 := idPatterns.foldl (fun acc pat => removeMatchingChildren (matchIdPat pat) acc) t
  let t2 := classPatterns.foldl
    (fun acc pat => removeMatchingChildren (matchClassPat pat) acc) t1
  textPatterns.foldl
    (fun acc pat =>
      runPattern pat ((nodeCount acc + 2) * ((txtPaths pat acc).length + 2)) acc 0) t2

/-- The `content_selectors` cascade, in source order. -/
def content_selectors : List Sel :=
  [.tag "article",
   .attrEq "itemprop" "articleBody",
   .cls "article-content",
   .cls "article-body",
   .cls "story-content",
   .cls "post-content",
   .desc (.tag "main") (.tag "article"),
   .desc (.tag "main") (.cls "article"),
   .desc (.cls "main-content") (.tag "article"),
   .desc (.cls "content-area") (.tag "article"),
   .cls "entry-content",
   .cls "post-body",
   .cls "story-body",
   .attrEq "role" "main",
   .cls "caas-body",
   .tag "main",
   .idSel "main-content",
   .cls "main-content"]

/-- The texts a selector tier contributes: for every matched element, its
text (with embedded `script`/`style`/`iframe`/`noscript`/`form` subtrees
decomposed) is normalized by `clean_text` and kept when
`text and len(text) > 100`. -/
def acceptedTexts (soup : Node) (s : Sel) : List (List Char) :=
  ((select soup s).map (fun c => clean_text (getTextPruned c))).filter
    (fun t => !t.isEmpty && decide (100 < t.length))

/-- The `for selector in content_selectors` loop: the accepted texts of each tier
are appended to `full_content`, and `if found_content: break` stops at the
first tier that accepted anything. -/
def cascadeLoop (sels : List Sel) (soup : Node) : List (List Char) :=
  match sels with
  | [] => []
  | s :: rest =>
    let acc := acceptedTexts soup s
    if acc.isEmpty then cascadeLoop rest soup else acc

/-- `'\n\n'.join(full_content)`. -/
def joinBlankLines : List (List Char) → List Char
  | [] => []
  | [t] => t
  | t :: t' :: ts => t ++ '\n' :: '\n' :: joinBlankLines (t' :: ts)

def title_selectors : List Sel :=
  [.attrEq "itemprop" "headline",
   .cls "article-title",
   .cls "entry-title",
   .cls "post-title",
   .cls "story-title"]

/-- The title fallback loop: the first selector with a match wins
(`if title_elem: title = ...; break`), whether or not its text is empty. -/
def titleLoop (soup : Node) : List Sel → Option (List Char)
  | [] => none
  | s :: rest =>
    match selectOne soup s with
    | some e => some (pyStrip (getText e))
    | none => titleLoop soup rest

/-- Title recovery: `soup.find('h1')` stripped, and when that is `None` or
empty (`if not title:`), the `title_selectors` fallback loop.  `none` models
Python `None`, `some []` a present-but-empty string. -/
def extractTitle (soup : Node) : Option (List Char) :=
  let title := (selectOne soup (.tag "h1")).map (fun e => pyStrip (getText e))
  let falsy := match title with
    | none => true
    | some t => t.isEmpty
  if falsy then
    match titleLoop soup title_selectors with
    | some t => some t
    | none => title
  else title

def date_selectors : List Sel :=
  [.attrEq "itemprop" "datePublished",
   .cls "article-date",
   .cls "post-date",
   .cls "published-date",
   .tag "time"]

/-- Date recovery: first matching selector wins; the `datetime` attribute is
preferred over the stripped text (`date_elem.get('datetime', ...)`). -/
def dateLoop (soup : Node) : List Sel → Option (List Char)
  | [] => none
  | s :: rest =>
    match selectOne soup s with
    | some e =>
      some (match attrOf e "datetime" with
        | some v => v.data
        | none => pyStrip (getText e))
    | none => dateLoop soup rest

def author_selectors : List Sel :=
  [.attrEq "itemprop" "author",
   .cls "article-author",
   .cls "post-author",
   .cls "author-name",
   .cls "byline"]

/-- `author = author_elem.get_text().strip(); if author and author not in
authors: authors.append(author)`. -/
def addAuthor (acc : List (List Char)) (e : Node) : List (List Char) :=
  let author := pyStrip (getText e)
  if author ≠ [] ∧ author ∉ acc then acc ++ [author] else acc

/-- Author recovery: every selector and every match is visited, aggregating
with case-sensitive exact-match dedup. -/
def extractAuthors (soup : Node) : List (List Char) :=
  author_selectors.foldl (fun acc s => (select soup s).foldl addAuthor acc) []

/-- The external collaborators of the pipeline: the two proxy fetch methods
(which catch their own exceptions, returning `none` on any failure), the
markup parser and serializer, and the generic `newspaper.Article`
download/parse fallback (`url → language → input_html → text`), which may
raise. -/
structure Env where
  oxylabs : String → Option String
  zyte : String → Option String
  parse : String → Except String Node
  serialize : Node → String
  fallback : String → String → String → Except String (List Char)

/-- `remove_overlays_and_clean_content`: no-op on empty input, otherwise the
three noise passes on the parsed tree, re-serialized (`str(soup)`). -/
def remove_overlays (env : Env) (html_content : String) : Except String String :=
  if html_content.isEmpty then Except.ok html_content
  else
    match env.parse html_content with
    | Except.error e => Except.error e
    | Except.ok soup => Except.ok (env.serialize (stripNoise soup))

/-- `self.clean_input_text(text)`: `text.strip() if text else ""`. -/
def clean_input_text (s : String) : String :=
  if s.isEmpty then "" else String.mk (pyStrip s.data)

/-- The result record: a `{url, error}` failure, or the populated record
`{url, title, text, authors, publish_date, method}`. -/
inductive ExtractionResult where
  | failure (url : String) (error : String)
  | success (url : String) (title : Option (List Char)) (text : List Char)
      (authors : List (List Char)) (publish_date : Option (List Char))
      (method : String)
deriving DecidableEq

/-- The body of `extract_article` inside the `try`: `Except.error` is a
Python exception propagating to the `except` clause (the explicit
`raise ValueError` for an unknown provider, or an exception out of a
collaborator). -/
def extract_article_run (env : Env) (url use_proxy language : String) :
    Except String ExtractionResult :=
  match (if use_proxy == "oxylabs" then Except.ok (env.oxylabs url)
         else if use_proxy == "zyte" then Except.ok (env.zyte url)
         else Except.error ("Invalid proxy provider: " ++ use_proxy)) with
  | Except.error e => Except.error e
  | Except.ok none => Except.ok (ExtractionResult.failure url "No response from proxy")
  | Except.ok (some raw) =>
    match remove_overlays env (clean_input_text raw) with
    | Except.error e => Except.error e
    | Except.ok cleaned_html =>
      match env.parse cleaned_html with
      | Except.error e => Except.error e
      | Except.ok soup =>
        match (if (cascadeLoop content_selectors soup).isEmpty then
                 match env.fallback url language cleaned_html with
                 | Except.error e => Except.error e
                 | Except.ok atext =>
                   Except.ok (if !atext.isEmpty then
                       (if !(clean_text atext).isEmpty then [clean_text atext] else [])
                     else [])
               else Except.ok (cascadeLoop content_selectors soup)) with
        | Except.error e => Except.error e
        | Except.ok full_content =>
          if full_content.isEmpty then
            Except.ok (ExtractionResult.failure url "No content found")
          else
            Except.ok (ExtractionResult.success url (extractTitle soup)
              (clean_text (joinBlankLines full_content)) (extractAuthors soup)
              (dateLoop soup date_selectors) use_proxy)

/-- `ProxyScraper.extract_article`: the whole body runs under
`try/except Exception`, so an exception becomes `{"url": url, "error": str(e)}`
and the call always returns exactly one record. -/
def extract_article (env : Env) (url use_proxy language : String) :
    ExtractionResult :=
  match extract_article_run env url use_proxy language with
  | Except.ok r => r
  | Except.error e => ExtractionResult.failure url e

def resultUrl : ExtractionResult → String
  | .failure u _ => u
  | .success u _ _ _ _ _ => u

def isSuccess : ExtractionResult → Bool
  | .failure _ _ => false
  | .success _ _ _ _ _ _ => true

def successText : ExtractionResult → List Char
  | .failure _ _ => []
  | .success _ _ t _ _ _ => t

/-- A page whose `article` element holds 101 characters and whose `main`
holds 150. -/
def soupArticlePage : Node :=
  .elem "[document]" [] [.elem "html" [] [.elem "body" [] [
    .elem "article" [] [.text (List.replicate 101 'x')],
    .elem "main" [] [.text (List.replicate 150 'y')]]]]

/-- A document whose `[itemprop="articleBody"]` element holds only 80
characters (below the acceptance threshold) while `main` holds 150. -/
def soupShortItemprop : Node :=
  .elem "[document]" [] [.elem "body" [] [
    .elem "div" [("itemprop", "articleBody")] [.text (List.replicate 80 'x')],
    .elem "main" [] [.text (List.replicate 150 'y')]]]

/-- An environment whose zyte fetch returns a page parsed to
`soupArticlePage`. -/
def envArticlePage : Env :=
  Env.mk (fun _ => none) (fun _ => some "h") (fun _ => Except.ok soupArticlePage)
    (fun _ => "s") (fun _ _ _ => Except.ok [])

/-- A `button` holding the phrase "Read More", below the 1000-character
bound. -/
def soupButton : Node :=
  .elem "[document]" [] [.elem "button" [] [.text "Read More".data]]

/-- A `section` holding the phrase "read more" inside 1004 characters of
text, above the 1000-character bound. -/
def soupLargeSection : Node :=
  .elem "[document]" [] [.elem "section" [] [.text ("read more".data ++ List.replicate 995 'z')]]

/-- Author elements yielding "Jane Doe", "Jane Doe" and "jane doe" across
two selector tiers. -/
def soupAuthors : Node :=
  .elem "[document]" [] [
    .elem "span" [("itemprop", "author")] [.text " Jane Doe ".data],
    .elem "span" [("itemprop", "author")] [.text "Jane Doe".data],
    .elem "span" [("class", "byline")] [.text "jane doe".data]]

/-- No `h1`, an empty `[itemprop="headline"]` element, and a nonempty
`.article-title` element. -/
def soupEmptyHeadline : Node :=
  .elem "[document]" [] [
    .elem "span" [("itemprop", "headline")] [],
    .elem "div" [("class", "article-title")] [.text "Real Title".data]]

/-- A page with a single `h1` whose text strips to "Title Text". -/
def soupWithH1 : Node :=
  .elem "[document]" [] [.elem "h1" [] [.text " Title Text ".data]]

/-- The environment with the generic fallback extractor replaced, used to
state that the fallback collaborator is not consulted when the cascade
succeeds. -/
def envSetFallback (env : Env) (g : String → String → String → Except String (List Char)) : Env :=
  Env.mk env.oxylabs env.zyte env.parse env.serialize g

/-- An environment whose markup parser raises. -/
def envParseErr : Env :=
  Env.mk (fun _ => none) (fun _ => some "h") (fun _ => Except.error "boom")
    (fun _ => "s") (fun _ _ _ => Except.ok [])

def soupEmpty : Node := .elem "[document]" [] []

/-- An environment whose page has no content and whose fallback extractor
returns empty text. -/
def envW9 : Env :=
  Env.mk (fun _ => none) (fun _ => some "h") (fun _ => Except.ok soupEmpty)
    (fun _ => "s") (fun _ _ _ => Except.ok [])

/-- A document where the first cascade tier (`article`) is absent, the second
(`[itemprop="articleBody"]`) holds 150 characters, and `main` holds 200. -/
def soupC5 : Node :=
  .elem "[document]" [] [.elem "body" [] [
    .elem "div" [("itemprop", "articleBody")] [.text (List.replicate 150 'a')],
    .elem "main" [] [.text (List.replicate 200 'b')]]]

/-! ### Lemmas about the Text Normalizer -/

theorem isPySpace_newline : isPySpace '\n' = true := rfl

theorem isPySpace_space : isPySpace ' ' = true := rfl

theorem mergeBlankLinesAux_skip :
    ∀ (l : List Char) (k : Nat), mergeBlankLinesAux k l = mergeBlankLinesAux 0 (l.drop k) := by
  intro l
  induction l with
  | nil => intro k; cases k <;> rfl
  | cons c cs ih =>
    intro k
    cases k with
    | zero => rfl
    | succ k' => simpa [mergeBlankLinesAux] using ih k'

theorem mergeBlankLines_cons (c : Char) (cs : List Char) :
    mergeBlankLines (c :: cs) =
      if c = '\n' then
        match lastNewlineIdx (cs.takeWhile isPySpace) with
        | some m => '\n' :: '\n' :: mergeBlankLines (cs.drop (m + 1))
        | none => c :: mergeBlankLines cs
      else c :: mergeBlankLines cs := by
  show mergeBlankLinesAux 0 (c :: cs) = _
  by_cases hc : c = '\n'
  · rw [if_pos hc]
    simp only [mergeBlankLinesAux, hc, if_pos rfl]
    cases hm : lastNewlineIdx (cs.takeWhile isPySpace) with
    | some m => simp [mergeBlankLinesAux_skip cs (m + 1), mergeBlankLines]
    | none => rfl
  · rw [if_neg hc]
    simp only [mergeBlankLinesAux, if_neg hc]
    rfl

theorem lastNewlineIdx_lt : ∀ (l : List Char) (m : Nat), lastNewlineIdx l = some m → m < l.length := by
  intro l
  induction l with
  | nil => intro m h; simp [lastNewlineIdx] at h
  | cons c cs ih =>
    intro m h
    simp only [lastNewlineIdx] at h
    cases hm : lastNewlineIdx cs with
    | some m' =>
      rw [hm] at h
      cases h
      have := ih m' hm
      simp
      omega
    | none =>
      rw [hm] at h
      by_cases hc : c = '\n'
      · rw [if_pos hc] at h; cases h; simp
      · rw [if_neg hc] at h; cases h

theorem collapseWSAux_true_drop :
    ∀ (k : Nat) (cs : List Char), k ≤ (cs.takeWhile isPySpace).length →
      collapseWSAux true (cs.drop k) = collapseWSAux true cs := by
  intro k
  induction k with
  | zero => intro cs _; rfl
  | succ k' ih =>
    intro cs hk
    cases cs with
    | nil => simp at hk
    | cons c cs' =>
      cases hw : isPySpace c with
      | false => simp [List.takeWhile_cons, hw] at hk
      | true =>
        simp only [List.takeWhile_cons, hw, if_true, List.length_cons] at hk
        calc collapseWSAux true ((c :: cs').drop (k' + 1))
            = collapseWSAux true (cs'.drop k') := by rfl
          _ = collapseWSAux true cs' := ih cs' (by omega)
          _ = collapseWSAux true (c :: cs') := by simp [collapseWSAux, hw]

theorem collapseWSAux_mergeBlankLines :
    ∀ (n : Nat) (l : List Char), l.length ≤ n → ∀ b,
      collapseWSAux b (mergeBlankLines l) = collapseWSAux b l := by
  intro n
  induction n with
  | zero =>
    intro l hl b
    cases l with
    | nil => rfl
    | cons c cs => simp at hl
  | succ n ih =>
    intro l hl b
    cases l with
    | nil => rfl
    | cons c cs =>
      rw [mergeBlankLines_cons]
      by_cases hc : c = '\n'
      · rw [if_pos hc]
        cases hm : lastNewlineIdx (cs.takeWhile isPySpace) with
        | some m =>
          have hm' : m < (cs.takeWhile isPySpace).length := lastNewlineIdx_lt _ _ hm
          have hlen : (cs.drop (m + 1)).length ≤ n := by
            simp only [List.length_cons] at hl
            simp [List.length_drop]
            omega
          have h1 := ih (cs.drop (m + 1)) hlen true
          have h2 : collapseWSAux true (cs.drop (m + 1)) = collapseWSAux true cs :=
            collapseWSAux_true_drop (m + 1) cs hm'
          subst hc
          cases b <;>
            simp [collapseWSAux, isPySpace_newline, h1, h2]
        | none =>
          subst hc
          have h1 := ih cs (by simp at hl; omega) true
          cases b <;> simp [collapseWSAux, isPySpace_newline, h1]
      · rw [if_neg hc]
        cases hw : isPySpace c with
        | true =>
          have h1 := ih cs (by simp at hl; omega) true
          cases b <;> simp [collapseWSAux, hw, h1]
        | false =>
          have h1 := ih cs (by simp at hl; omega) false
          cases b <;> simp [collapseWSAux, hw, h1]

theorem collapseWS_mergeBlankLines (l : List Char) :
    collapseWS (mergeBlankLines l) = collapseWS l :=
  collapseWSAux_mergeBlankLines l.length l (Nat.le_refl _) false

theorem mem_collapseWSAux {c : Char} :
    ∀ (b : Bool) (l : List Char), c ∈ collapseWSAux b l → c = ' ' ∨ isPySpace c = false := by
  intro b l
  induction l generalizing b with
  | nil => intro h; simp [collapseWSAux] at h
  | cons d ds ih =>
    intro h
    cases hw : isPySpace d with
    | true =>
      cases b with
      | true =>
        simp only [collapseWSAux, hw, if_pos, if_true] at h
        exact ih true h
      | false =>
        simp only [collapseWSAux, hw, if_true] at h
        rcases List.mem_cons.mp h with h1 | h1
        · exact Or.inl h1
        · exact ih true h1
    | false =>
      simp only [collapseWSAux, hw, Bool.false_eq_true, if_false] at h
      rcases List.mem_cons.mp h with h1 | h1
      · subst h1; exact Or.inr hw
      · exact ih false h1

theorem mem_removePhrasesAux {c : Char} :
    ∀ (k : Nat) (l : List Char), c ∈ removePhrasesAux k l → c ∈ l := by
  intro k l
  induction l generalizing k with
  | nil => intro h; simp [removePhrasesAux] at h
  | cons d ds ih =>
    intro h
    cases k with
    | succ k' =>
      simp only [removePhrasesAux] at h
      exact List.mem_cons_of_mem d (ih k' h)
    | zero =>
      simp only [removePhrasesAux] at h
      split at h
      · exact List.mem_cons_of_mem d (ih _ h)
      · split at h
        · exact List.mem_cons_of_mem d (ih _ h)
        · split at h
          · exact List.mem_cons_of_mem d (ih _ h)
          · split at h
            · exact List.mem_cons_of_mem d (ih _ h)
            · rcases List.mem_cons.mp h with h1 | h1
              · subst h1; exact List.mem_cons_self c ds
              · exact List.mem_cons_of_mem d (ih 0 h1)

theorem mem_pyStrip {c : Char} {l : List Char} (h : c ∈ pyStrip l) : c ∈ l := by
  unfold pyStrip at h
  rw [List.mem_reverse] at h
  have h2 := (List.dropWhile_sublist (l := (l.dropWhile isPySpace).reverse) isPySpace).mem h
  rw [List.mem_reverse] at h2
  exact (List.dropWhile_sublist isPySpace).mem h2

theorem no_newline_clean_text (l : List Char) : '\n' ∉ clean_text l := by
  unfold clean_text
  split
  · simp
  · intro h
    have h1 := mem_pyStrip h
    have h2 := mem_removePhrasesAux 0 _ h1
    have h3 := mem_collapseWSAux false _ h2
    rcases h3 with h3 | h3
    · cases h3
    · rw [isPySpace_newline] at h3; cases h3

theorem clean_text_unfold (t : List Char) :
    clean_text t = pyStrip (removePhrases (collapseWS (mergeBlankLines t))) := by
  unfold clean_text
  split
  · rename_i he
    rw [List.isEmpty_iff] at he
    subst he
    rfl
  · rfl

theorem mergeBlankLines_id : ∀ (l : List Char), '\n' ∉ l → mergeBlankLines l = l := by
  intro l
  induction l with
  | nil => intro _; rfl
  | cons c cs ih =>
    intro h
    rw [mergeBlankLines_cons]
    have hc : c ≠ '\n' := fun he => h (he ▸ List.mem_cons_self c cs)
    rw [if_neg hc]
    exact congrArg (c :: ·) (ih (fun hm => h (List.mem_cons_of_mem c hm)))

theorem removePhrasesAux_id : ∀ (l : List Char), hasPhrase l = false → removePhrasesAux 0 l = l := by
  intro l
  induction l with
  | nil => intro _; rfl
  | cons c cs ih =>
    intro h
    simp only [hasPhrase, Bool.or_eq_false_iff] at h
    obtain ⟨⟨⟨⟨h1, h2⟩, h3⟩, h4⟩, h5⟩ := h
    simp only [removePhrasesAux, h1, h2, h3, h4, Bool.false_eq_true, if_false]
    exact congrArg (c :: ·) (ih h5)

theorem collapseWSAux_id :
    ∀ (l : List Char), (∀ c ∈ l, isPySpace c = true → c = ' ') → noTwoSpaces l = true →
      collapseWSAux false l = l ∧
        (∀ d ds, l = d :: ds → isPySpace d = false → collapseWSAux true l = l) := by
  intro l
  induction l with
  | nil => exact fun _ _ => ⟨rfl, fun d ds h => by cases h⟩
  | cons c cs ih =>
    intro hsp h2
    have hsp' : ∀ x ∈ cs, isPySpace x = true → x = ' ' :=
      fun x hx => hsp x (List.mem_cons_of_mem _ hx)
    have h2' : noTwoSpaces cs = true := by
      cases cs with
      | nil => rfl
      | cons d ds =>
        simp only [noTwoSpaces, Bool.and_eq_true] at h2
        exact h2.2
    obtain ⟨ihP, ihQ⟩ := ih hsp' h2'
    constructor
    · cases hw : isPySpace c with
      | true =>
        have hc : c = ' ' := hsp c (List.mem_cons_self c cs) hw
        have haux : collapseWSAux true cs = cs := by
          cases cs with
          | nil => rfl
          | cons d ds =>
            have hcd : (!(isPySpace c && isPySpace d)) = true := by
              simp only [noTwoSpaces, Bool.and_eq_true] at h2
              exact h2.1
            rw [hw, Bool.true_and, Bool.not_eq_true'] at hcd
            exact ihQ d ds rfl hcd
        subst hc
        simp [collapseWSAux, isPySpace_space, haux]
      | false =>
        simp [collapseWSAux, hw, ihP]
    · intro d ds hl hd
      cases hl
      simp [collapseWSAux, hd, ihP]

theorem head?_dropWhile (p : Char → Bool) :
    ∀ (l : List Char) (c : Char), (l.dropWhile p).head? = some c → p c = false := by
  intro l
  induction l with
  | nil => intro c h; simp [List.dropWhile] at h
  | cons d ds ih =>
    intro c h
    cases hp : p d with
    | true =>
      rw [List.dropWhile_cons, if_pos hp] at h
      exact ih c h
    | false =>
      rw [List.dropWhile_cons, if_neg (by simp [hp])] at h
      cases h
      exact hp

theorem getLast?_dropWhile (p : Char → Bool) :
    ∀ (l : List Char), l.dropWhile p ≠ [] → (l.dropWhile p).getLast? = l.getLast? := by
  intro l
  induction l with
  | nil => intro h; simp [List.dropWhile] at h
  | cons d ds ih =>
    intro h
    cases hp : p d with
    | false => rw [List.dropWhile_cons, if_neg (by simp [hp])]
    | true =>
      rw [List.dropWhile_cons, if_pos hp] at h ⊢
      have hds : ds ≠ [] := by
        intro he
        subst he
        simp [List.dropWhile] at h
      cases ds with
      | nil => exact absurd rfl hds
      | cons e es =>
        rw [ih h, List.getLast?_cons_cons]

theorem dropWhile_eq_self_of_head (p : Char → Bool) (l : List Char)
    (h : ∀ c, l.head? = some c → p c = false) : l.dropWhile p = l := by
  cases l with
  | nil => rfl
  | cons d ds => rw [List.dropWhile_cons, if_neg (by simp [h d rfl])]

theorem pyStrip_head (l : List Char) (c : Char)
    (h : (pyStrip l).head? = some c) : isPySpace c = false := by
  unfold pyStrip at h
  rw [List.head?_reverse] at h
  have hne : (l.dropWhile isPySpace).reverse.dropWhile isPySpace ≠ [] := by
    intro he
    rw [he] at h
    cases h
  rw [getLast?_dropWhile _ _ hne, List.getLast?_reverse] at h
  exact head?_dropWhile isPySpace l c h

theorem pyStrip_last (l : List Char) (c : Char)
    (h : (pyStrip l).getLast? = some c) : isPySpace c = false := by
  unfold pyStrip at h
  rw [List.getLast?_reverse] at h
  exact head?_dropWhile isPySpace _ c h

theorem pyStrip_id (l : List Char)
    (h1 : ∀ c, l.head? = some c → isPySpace c = false)
    (h2 : ∀ c, l.getLast? = some c → isPySpace c = false) : pyStrip l = l := by
  unfold pyStrip
  rw [dropWhile_eq_self_of_head _ _ h1,
    dropWhile_eq_self_of_head _ _ (fun c hc => h2 c (by rwa [List.head?_reverse] at hc)),
    List.reverse_reverse]

theorem mem_clean_text_space (l : List Char) (c : Char)
    (hc : c ∈ clean_text l) (hw : isPySpace c = true) : c = ' ' := by
  rw [clean_text_unfold] at hc
  have h1 := mem_pyStrip hc
  have h2 := mem_removePhrasesAux 0 _ h1
  have h3 := mem_collapseWSAux false _ h2
  rcases h3 with h3 | h3
  · exact h3
  · rw [hw] at h3; cases h3

theorem clean_text_head (l : List Char) :
    ∀ c, (clean_text l).head? = some c → isPySpace c = false := by
  intro c h
  rw [clean_text_unfold] at h
  exact pyStrip_head _ c h

theorem clean_text_last (l : List Char) :
    ∀ c, (clean_text l).getLast? = some c → isPySpace c = false := by
  intro c h
  rw [clean_text_unfold] at h
  exact pyStrip_last _ c h

theorem clean_text_fixed_point_aux (l : List Char)
    (hp : hasPhrase (clean_text l) = false)
    (h2 : noTwoSpaces (clean_text l) = true) :
    clean_text (clean_text l) = clean_text l := by
  have hnl : '\n' ∉ clean_text l := no_newline_clean_text l
  have hsp : ∀ c ∈ clean_text l, isPySpace c = true → c = ' ' :=
    fun c hc hw => mem_clean_text_space l c hc hw
  rw [clean_text_unfold (clean_text l), mergeBlankLines_id _ hnl]
  show pyStrip (removePhrases (collapseWSAux false (clean_text l))) = clean_text l
  rw [(collapseWSAux_id _ hsp h2).1]
  show pyStrip (removePhrasesAux 0 (clean_text l)) = clean_text l
  rw [removePhrasesAux_id _ hp]
  exact pyStrip_id _ (clean_text_head l) (clean_text_last l)

/-! ### Lemmas about the Content Locator cascade -/

theorem acceptedTexts_eq_filter (soup : Node) (s : Sel) :
    acceptedTexts soup s =
      ((select soup s).map (fun c => clean_text (getTextPruned c))).filter
        (fun t => decide (100 < t.length)) := by
  unfold acceptedTexts
  apply List.filter_congr
  intro t _
  cases t with
  | nil => rfl
  | cons a as => simp

theorem cascadeLoop_nil_iff (sels : List Sel) (soup : Node) :
    cascadeLoop sels soup = [] ↔ ∀ s ∈ sels, acceptedTexts soup s = [] := by
  induction sels with
  | nil => simp [cascadeLoop]
  | cons s rest ih =>
    show (if (acceptedTexts soup s).isEmpty then cascadeLoop rest soup
      else acceptedTexts soup s) = [] ↔ _
    cases he : (acceptedTexts soup s).isEmpty with
    | true =>
      rw [List.isEmpty_iff] at he
      simp [he, ih]
    | false =>
      have hne : acceptedTexts soup s ≠ [] := by
        intro h
        rw [h] at he
        cases he
      simp only [if_neg, Bool.false_eq_true, if_false]
      constructor
      · intro h; exact absurd h hne
      · intro h; exact absurd (h s (List.mem_cons_self s rest)) hne

theorem cascadeLoop_first_win (soup : Node) :
    ∀ (pre : List Sel) (s : Sel) (post : List Sel),
      (∀ s' ∈ pre, acceptedTexts soup s' = []) → acceptedTexts soup s ≠ [] →
      cascadeLoop (pre ++ s :: post) soup = acceptedTexts soup s := by
  intro pre
  induction pre with
  | nil =>
    intro s post _ hne
    show (if (acceptedTexts soup s).isEmpty then cascadeLoop post soup
      else acceptedTexts soup s) = _
    rw [if_neg (by simpa [List.isEmpty_iff] using hne)]
  | cons p pre' ih =>
    intro s post hpre hne
    have hp : acceptedTexts soup p = [] := hpre p (List.mem_cons_self p pre')
    show (if (acceptedTexts soup p).isEmpty then cascadeLoop (pre' ++ s :: post) soup
      else acceptedTexts soup p) = _
    rw [hp]
    exact ih s post (fun x hx => hpre x (List.mem_cons_of_mem p hx)) hne

/-! ### Lemmas about Metadata Recovery -/

theorem addAuthor_nodup {acc : List (List Char)} (e : Node) (h : acc.Nodup) :
    (addAuthor acc e).Nodup := by
  show (if pyStrip (getText e) ≠ [] ∧ pyStrip (getText e) ∉ acc then
    acc ++ [pyStrip (getText e)] else acc).Nodup
  split
  · rename_i hcond
    rw [List.nodup_append]
    exact ⟨h, List.nodup_singleton _, by
      intro x hx hmem
      rw [List.mem_singleton] at hmem
      subst hmem
      exact hcond.2 hx⟩
  · exact h

theorem foldl_addAuthor_nodup :
    ∀ (es : List Node) (acc : List (List Char)), acc.Nodup → (es.foldl addAuthor acc).Nodup := by
  intro es
  induction es with
  | nil => exact fun acc h => h
  | cons e es' ih => exact fun acc h => ih (addAuthor acc e) (addAuthor_nodup e h)

theorem extractAuthors_nodup (soup : Node) : (extractAuthors soup).Nodup := by
  unfold extractAuthors
  have main : ∀ (sels : List Sel) (acc : List (List Char)), acc.Nodup →
      (sels.foldl (fun acc s => (select soup s).foldl addAuthor acc) acc).Nodup := by
    intro sels
    induction sels with
    | nil => exact fun acc h => h
    | cons s sels' ih => exact fun acc h => ih _ (foldl_addAuthor_nodup _ acc h)
  exact main author_selectors [] List.nodup_nil

theorem titleLoop_eq (soup : Node) :
    ∀ (sels : List Sel), titleLoop soup sels =
      ((sels.filterMap (fun s => selectOne soup s)).head?).map (fun e => pyStrip (getText e)) := by
  intro sels
  induction sels with
  | nil => rfl
  | cons s rest ih =>
    show (match selectOne soup s with
      | some e => some (pyStrip (getText e))
      | none => titleLoop soup rest) = _
    cases h : selectOne soup s with
    | some e => simp [List.filterMap_cons, h]
    | none => simp [List.filterMap_cons, h, ih]

/-! ### Lemmas about the Noise Stripper ancestor walk -/

theorem walkUpR_some :
    ∀ (rp : List Nat) (t : Node) (q : List Nat), (walkUpR t rp (some q)).2 ≠ none := by
  intro rp
  induction rp with
  | nil => intro t q h; cases h
  | cons r rp' ih =>
    intro t q
    rw [walkUpR]
    cases hg : getN? t (r :: rp').reverse with
    | none => intro h; cases h
    | some n =>
      dsimp only
      by_cases hcond : (isNoiseAncestor n && decide ((getText n).length < 1000)) = true
      · rw [if_pos hcond]
        exact ih (removeAtN t (r :: rp').reverse) (r :: rp').reverse
      · rw [if_neg hcond]
        intro h
        cases h

theorem dropLast_reverse_eq_tail_reverse (p : List Nat) :
    p.dropLast.reverse = p.reverse.tail := by
  rcases List.eq_nil_or_concat p with h | ⟨q, a, h⟩ <;> subst h
  · rfl
  · simp

/-! ### Lemmas about the Orchestrator -/

theorem extract_article_run_url (env : Env) (url p lang : String) :
    ∀ r, extract_article_run env url p lang = Except.ok r → resultUrl r = url := by
  intro r h
  unfold extract_article_run at h
  repeat' split at h
  all_goals cases h
  all_goals rfl

theorem extract_article_url (env : Env) (url p lang : String) :
    resultUrl (extract_article env url p lang) = url := by
  unfold extract_article
  cases hrun : extract_article_run env url p lang with
  | error e => rfl
  | ok r => exact extract_article_run_url env url p lang r hrun

theorem extract_article_run_success_text (env : Env) (url p lang : String) :
    ∀ u ti te au d me,
      extract_article_run env url p lang =
        Except.ok (ExtractionResult.success u ti te au d me) →
      ∃ x, te = clean_text x := by
  intro u ti te au d me h
  unfold extract_article_run at h
  repeat' split at h
  all_goals cases h
  exact ⟨_, rfl⟩

/-! ### Claim theorems -/

/-- C1: for every input url, provider string and language, `extract_article`
returns exactly one result record (it is a total function into
`ExtractionResult`) and never raises: the returned record always carries the
input url, an unsupported provider name yields the
`Invalid proxy provider` error record, a missing proxy response yields the
`No response from proxy` error record, and an exception raised by a
collaborator (here the markup parser, via `remove_overlays`) is surfaced as
`{url, error}` instead of being thrown. -/
theorem C1_uniform_result_record :
    ∀ (env : Env) (url p lang : String),
      resultUrl (extract_article env url p lang) = url
      ∧ (p ≠ "oxylabs" → p ≠ "zyte" →
          extract_article env url p lang =
            ExtractionResult.failure url ("Invalid proxy provider: " ++ p))
      ∧ (env.oxylabs url = none →
          extract_article env url "oxylabs" lang =
            ExtractionResult.failure url "No response from proxy")
      ∧ (env.zyte url = none →
          extract_article env url "zyte" lang =
            ExtractionResult.failure url "No response from proxy")
      ∧ (∀ raw e, env.zyte url = some raw →
          remove_overlays env (clean_input_text raw) = Except.error e →
          extract_article env url "zyte" lang = ExtractionResult.failure url e) := by
  intro env url p lang
  refine ⟨extract_article_url env url p lang, ?_, ?_, ?_, ?_⟩
  · intro h1 h2
    have hb1 : (p == "oxylabs") = false := by simp [h1]
    have hb2 : (p == "zyte") = false := by simp [h2]
    simp [extract_article, extract_article_run, hb1, hb2]
  · intro hz
    simp [extract_article, extract_article_run, hz]
  · intro hz
    simp [extract_article, extract_article_run, hz]
  · intro raw e hz hre
    simp [extract_article, extract_article_run, hz, hre]

/-- C1 witness: concrete failure records for an unknown provider, a proxy
returning no response, and a parser exception. -/
theorem C1_witness :
    extract_article envArticlePage "u" "bogus" "en" =
      ExtractionResult.failure "u" "Invalid proxy provider: bogus"
    ∧ extract_article envArticlePage "u" "oxylabs" "en" =
        ExtractionResult.failure "u" "No response from proxy"
    ∧ extract_article envParseErr "u" "zyte" "en" =
        ExtractionResult.failure "u" "boom" :=
  ⟨(C1_uniform_result_record envArticlePage "u" "bogus" "en").2.1 (by decide) (by decide),
   (C1_uniform_result_record envArticlePage "u" "oxylabs" "en").2.2.1 rfl,
   (C1_uniform_result_record envParseErr "u" "zyte" "en").2.2.2.2 "h" "boom" rfl rfl⟩

/-- C2 counterexample: the claim says a whitespace run with two or more
newlines is collapsed into exactly one blank line, so `"a\n\nb"` should keep
its blank line; the second regex of the code collapses that blank line into a
single space, giving `"a b"`. -/
theorem C2_counterexample :
    clean_text "a\n\nb".data = "a b".data ∧ clean_text "a\n\nb".data ≠ "a\n\nb".data :=
  ⟨by decide, by decide⟩

/-- C2 amended: the blank-line rewriting step is subsumed by the following
`\s+` pass, which collapses every whitespace run (including the just-created
blank lines) into a single space, so `clean_text` equals phrase removal and
trimming applied to the fully space-collapsed text, and its output contains
no newline at all. -/
theorem C2_amended_collapse_subsumes_blank_lines :
    ∀ l : List Char,
      clean_text l = pyStrip (removePhrases (collapseWS l)) ∧ '\n' ∉ clean_text l := by
  intro l
  refine ⟨?_, no_newline_clean_text l⟩
  rw [clean_text_unfold, collapseWS_mergeBlankLines]

/-- C3 counterexample: the normalizer is not idempotent.  Removing
`advertisement` from `"a advertisement b"` leaves the two surrounding spaces
adjacent (`"a  b"`), and a second pass collapses them to `"a b"`. -/
theorem C3_counterexample :
    clean_text (clean_text "a advertisement b".data) ≠ clean_text "a advertisement b".data
    ∧ clean_text "a advertisement b".data = "a  b".data
    ∧ clean_text "a  b".data = "a b".data :=
  ⟨by decide, by decide, by decide⟩

/-- C3 amended: a normalized text is a fixed point of the normalizer provided
it contains no boilerplate-phrase occurrence and no two adjacent whitespace
characters — the two artefacts that phrase removal (the last rewriting step
before the trim) can itself produce. -/
theorem C3_amended_fixed_point :
    ∀ l : List Char, hasPhrase (clean_text l) = false → noTwoSpaces (clean_text l) = true →
      clean_text (clean_text l) = clean_text l :=
  clean_text_fixed_point_aux

/-- C3 witness: a concrete normalized text that the conditions hold for and
that the normalizer leaves unchanged. -/
theorem C3_witness :
    hasPhrase (clean_text "hello world".data) = false
    ∧ noTwoSpaces (clean_text "hello world".data) = true
    ∧ clean_text (clean_text "hello world".data) = clean_text "hello world".data :=
  ⟨by decide, by decide, C3_amended_fixed_point "hello world".data (by decide) (by decide)⟩

/-- C4: a text block of a tier is accepted exactly when its normalized length
strictly exceeds 100 characters, and the cascade returns empty exactly when
the accepted-text list of every tier is empty — so a tier whose matches all
normalize to 100 characters or fewer never stops the cascade, and the
locator never returns empty while some lower-priority tier would accept a
block. -/
theorem C4_acceptance_iff_and_fallthrough :
    (∀ (soup : Node) (s : Sel),
      acceptedTexts soup s =
        ((select soup s).map (fun c => clean_text (getTextPruned c))).filter
          (fun t => decide (100 < t.length)))
    ∧ (∀ (sels : List Sel) (soup : Node),
        cascadeLoop sels soup = [] ↔ ∀ s ∈ sels, acceptedTexts soup s = []) :=
  ⟨acceptedTexts_eq_filter, cascadeLoop_nil_iff⟩

/-- C4 witness: in a document whose `[itemprop="articleBody"]` element holds
only 80 characters but whose `main` holds 150, the itemprop tier accepts
nothing, yet the cascade is nonempty — it fell through to `main`. -/
theorem C4_witness :
    cascadeLoop content_selectors soupShortItemprop ≠ []
    ∧ acceptedTexts soupShortItemprop (Sel.attrEq "itemprop" "articleBody") = [] :=
  ⟨fun hnil =>
    absurd ((C4_acceptance_iff_and_fallthrough.2 content_selectors soupShortItemprop).mp hnil
      (Sel.tag "main") (by decide)) (by decide),
   by decide⟩

/-- C5: first-tier-wins.  When every selector before `s` accepts nothing and
`s` accepts at least one block, the cascade result is exactly the list of
blocks accepted by `s` — nothing from any later tier is concatenated in. -/
theorem C5_first_tier_wins :
    ∀ (soup : Node) (pre : List Sel) (s : Sel) (post : List Sel),
      (∀ s' ∈ pre, acceptedTexts soup s' = []) →
      acceptedTexts soup s ≠ [] →
      cascadeLoop (pre ++ s :: post) soup = acceptedTexts soup s :=
  fun soup pre s post => cascadeLoop_first_win soup pre s post

/-- C5 witness: with a 150-character `[itemprop="articleBody"]` and a
200-character `main` both above the threshold, the result is the itemprop
tier only, even though the `main` tier also accepts. -/
theorem C5_witness :
    cascadeLoop content_selectors soupC5 =
      acceptedTexts soupC5 (Sel.attrEq "itemprop" "articleBody")
    ∧ acceptedTexts soupC5 (Sel.tag "main") ≠ [] :=
  ⟨C5_first_tier_wins soupC5 [Sel.tag "article"] (Sel.attrEq "itemprop" "articleBody")
    (content_selectors.drop 2) (by decide) (by decide),
   by decide⟩

/-- C6: in the text-pattern pass, the walk starting at the element at path
`p` (the parent of a matched text node) deletes it exactly when its tag is
one of `button`/`a`/`div`/`section` and its current total text length is
strictly below 1000; on deletion the walk continues from the former parent
(`p.dropLast`) on the pruned tree; in particular a `section` with text length
at least 1000 is not removed and nothing past it is, while a `button` with
text length below 1000 is removed. -/
theorem C6_ancestor_walk_condition :
    ∀ (t : Node) (p : List Nat) (a : Node), p ≠ [] → getN? t p = some a →
      (((walkUp t p none).2 ≠ none) ↔
          (isNoiseAncestor a = true ∧ (getText a).length < 1000))
      ∧ (isNoiseAncestor a = true → (getText a).length < 1000 →
          walkUp t p none = walkUp (removeAtN t p) p.dropLast (some p))
      ∧ (tagOf a = some "section" → 1000 ≤ (getText a).length →
          walkUp t p none = (t, none))
      ∧ (tagOf a = some "button" → (getText a).length < 1000 →
          (walkUp t p none).2 ≠ none) := by
  intro t p a hp ha
  obtain ⟨r, rp', hr⟩ : ∃ r rp', p.reverse = r :: rp' := by
    cases hrev : p.reverse with
    | nil => exact absurd (List.reverse_eq_nil_iff.mp hrev) hp
    | cons x xs => exact ⟨x, xs, rfl⟩
  have hback : (r :: rp').reverse = p := by rw [← hr, List.reverse_reverse]
  have hrp' : rp' = p.dropLast.reverse := by
    rw [dropLast_reverse_eq_tail_reverse, hr]
    rfl
  have hstep : walkUp t p none =
      if (isNoiseAncestor a && decide ((getText a).length < 1000)) = true then
        walkUpR (removeAtN t p) rp' (some p)
      else (t, none) := by
    unfold walkUp
    rw [hr, walkUpR, hback, ha]
  refine ⟨?_, ?_, ?_, ?_⟩
  · by_cases hcond : (isNoiseAncestor a && decide ((getText a).length < 1000)) = true
    · rw [hstep, if_pos hcond]
      simp only [Bool.and_eq_true, decide_eq_true_eq] at hcond
      exact ⟨fun _ => hcond, fun _ => walkUpR_some rp' (removeAtN t p) p⟩
    · rw [hstep, if_neg hcond]
      simp only [Bool.and_eq_true, decide_eq_true_eq] at hcond
      exact ⟨fun hne => absurd rfl hne, fun hc => absurd hc hcond⟩
  · intro hA hB
    rw [hstep, if_pos (by simp [hA, hB])]
    unfold walkUp
    rw [← hrp']
  · intro hs hlen
    have hA : isNoiseAncestor a = true := by
      simp [isNoiseAncestor, hs, noiseAncestorTags]
    rw [hstep, if_neg (by simp [hA, Nat.not_lt.mpr hlen])]
  · intro hb hlen
    have hA : isNoiseAncestor a = true := by
      simp [isNoiseAncestor, hb, noiseAncestorTags]
    rw [hstep, if_pos (by simp [hA, hlen])]
    exact walkUpR_some rp' (removeAtN t p) p

/-- C6 witness: a `button` holding "Read More" (length below 1000) is
deleted by the walk; a `section` holding a noise phrase inside 1004
characters of text is left untouched. -/
theorem C6_witness :
    (walkUp soupButton [0] none).2 ≠ none
    ∧ walkUp soupLargeSection [0] none = (soupLargeSection, none) :=
  ⟨(C6_ancestor_walk_condition soupButton [0]
      (Node.elem "button" [] [Node.text "Read More".data]) (by decide) rfl).2.2.2
    rfl (by decide),
   (C6_ancestor_walk_condition soupLargeSection [0]
      (Node.elem "section" [] [Node.text ("read more".data ++ List.replicate 995 'z')])
      (by decide) rfl).2.2.1 rfl (by decide)⟩

/-- C7: author recovery visits every selector and every match, appending the
trimmed text only when not already present (case-sensitive), so the authors
list never contains duplicates and keeps first-occurrence order; matches
yielding "Jane Doe", "Jane Doe", "jane doe" produce
`["Jane Doe", "jane doe"]`. -/
theorem C7_authors_nodup_dedup :
    (∀ soup : Node, (extractAuthors soup).Nodup)
    ∧ extractAuthors soupAuthors = ["Jane Doe".data, "jane doe".data] :=
  ⟨extractAuthors_nodup, by decide⟩

/-- C8 counterexample: with no `h1`, an empty `[itemprop="headline"]`
element and a nonempty `.article-title`, the claim predicts the title
"Real Title" (skipping the empty match); the code breaks on the first
matched element regardless and returns the empty string. -/
theorem C8_counterexample :
    extractTitle soupEmptyHeadline = some []
    ∧ (some ("Real Title".data) : Option (List Char)) ≠ some [] :=
  ⟨by decide, by decide⟩

/-- C8 amended: the trimmed text of the first `h1` of the document is the title
when nonempty; otherwise the fallback loop returns the trimmed text of the
first selector that matches any element at all — even when that text is
empty — and only when no fallback selector matches does the `h1` value
(absent or empty) remain. -/
theorem C8_amended_first_match_wins :
    ∀ soup : Node,
      (∀ e, selectOne soup (Sel.tag "h1") = some e → pyStrip (getText e) ≠ [] →
        extractTitle soup = some (pyStrip (getText e)))
      ∧ ((∀ e, selectOne soup (Sel.tag "h1") = some e → pyStrip (getText e) = []) →
          extractTitle soup =
            match (title_selectors.filterMap (fun s => selectOne soup s)).head? with
            | some e => some (pyStrip (getText e))
            | none => (selectOne soup (Sel.tag "h1")).map (fun e => pyStrip (getText e))) := by
  intro soup
  constructor
  · intro e he hne
    cases hps : pyStrip (getText e) with
    | nil => exact absurd hps hne
    | cons a as => simp [extractTitle, he, hps]
  · intro hAll
    cases hsel : selectOne soup (Sel.tag "h1") with
    | none =>
      simp only [extractTitle, hsel, Option.map_none', titleLoop_eq]
      cases hh : (title_selectors.filterMap (fun s => selectOne soup s)).head? <;>
        simp [hh]
    | some e =>
      have he0 : pyStrip (getText e) = [] := hAll e hsel
      simp only [extractTitle, hsel, Option.map_some', he0, titleLoop_eq]
      cases hh : (title_selectors.filterMap (fun s => selectOne soup s)).head? <;>
        simp [hh, he0]

/-- C8 witness: a document whose `h1` text strips to the nonempty
"Title Text" gets exactly that title. -/
theorem C8_witness : extractTitle soupWithH1 = some "Title Text".data :=
  (C8_amended_first_match_wins soupWithH1).1
    (Node.elem "h1" [] [Node.text " Title Text ".data]) rfl (by decide)

/-- C9: when the cascade accepts at least one block the call succeeds with
the assembled record — whatever the title/date/author recovery yields (their
absence is not an error) — and the result does not depend on the fallback
extractor at all; when the cascade accepts nothing and the fallback text
normalizes to empty, the call fails with exactly "No content found". -/
theorem C9_fallback_and_no_content :
    ∀ (env : Env) (g : String → String → String → Except String (List Char))
      (url lang raw ch : String) (soup : Node),
      env.zyte url = some raw →
      remove_overlays env (clean_input_text raw) = Except.ok ch →
      env.parse ch = Except.ok soup →
      ((cascadeLoop content_selectors soup ≠ [] →
          extract_article env url "zyte" lang =
            ExtractionResult.success url (extractTitle soup)
              (clean_text (joinBlankLines (cascadeLoop content_selectors soup)))
              (extractAuthors soup) (dateLoop soup date_selectors) "zyte")
        ∧ (cascadeLoop content_selectors soup ≠ [] →
            extract_article env url "zyte" lang =
              extract_article (envSetFallback env g) url "zyte" lang)
        ∧ (∀ atext, cascadeLoop content_selectors soup = [] →
            env.fallback url lang ch = Except.ok atext →
            clean_text atext = [] →
            extract_article env url "zyte" lang =
              ExtractionResult.failure url "No content found")) := by
  intro env g url lang raw ch soup hz hro hparse
  have hsucc : ∀ (env' : Env), env'.zyte url = some raw →
      remove_overlays env' (clean_input_text raw) = Except.ok ch →
      env'.parse ch = Except.ok soup →
      cascadeLoop content_selectors soup ≠ [] →
      extract_article env' url "zyte" lang =
        ExtractionResult.success url (extractTitle soup)
          (clean_text (joinBlankLines (cascadeLoop content_selectors soup)))
          (extractAuthors soup) (dateLoop soup date_selectors) "zyte" := by
    intro env' hz' hro' hparse' hne
    have hempty : (cascadeLoop content_selectors soup).isEmpty = false := by
      cases hc : cascadeLoop content_selectors soup with
      | nil => exact absurd hc hne
      | cons x xs => rfl
    simp [extract_article, extract_article_run, hz', hro', hparse', hempty]
  refine ⟨?_, ?_, ?_⟩
  · exact hsucc env hz hro hparse
  · intro hne
    rw [hsucc env hz hro hparse hne,
      hsucc (envSetFallback env g) hz hro hparse hne]
  · intro atext hempty hfb hct
    have he : (cascadeLoop content_selectors soup).isEmpty = true := by
      rw [hempty]; rfl
    cases atext with
    | nil => simp [extract_article, extract_article_run, hz, hro, hparse, he, hfb]
    | cons a as =>
      simp [extract_article, extract_article_run, hz, hro, hparse, he, hfb, hct]

/-- C9 witness: a contentless page with an empty fallback yields exactly the
"No content found" failure; on a page with content, replacing the fallback
extractor does not change the result. -/
theorem C9_witness :
    extract_article envW9 "u" "zyte" "en" =
      ExtractionResult.failure "u" "No content found"
    ∧ extract_article envArticlePage "u" "zyte" "en" =
        extract_article (envSetFallback envArticlePage (fun _ _ _ => Except.error "x")) "u" "zyte" "en" :=
  ⟨(C9_fallback_and_no_content envW9 envW9.fallback "u" "en" "h" "s" soupEmpty
      rfl rfl rfl).2.2 [] (by decide) rfl rfl,
   (C9_fallback_and_no_content envArticlePage (fun _ _ _ => Except.error "x") "u" "en" "h" "s" soupArticlePage
      rfl rfl rfl).2.1 (by decide)⟩

/-- C10: the output of the Text Normalizer never contains a newline — the `\s+`
pass turns every whitespace run, including the blank lines produced by the
first pass, into a single space — and consequently the text field of every
successful extraction result is a single line. -/
theorem C10_no_newline_in_output :
    (∀ l : List Char, '\n' ∉ clean_text l)
    ∧ (∀ (env : Env) (url p lang u : String) (ti : Option (List Char))
        (te : List Char) (au : List (List Char)) (d : Option (List Char)) (me : String),
        extract_article env url p lang = ExtractionResult.success u ti te au d me →
        '\n' ∉ te) := by
  constructor
  · exact no_newline_clean_text
  · intro env url p lang u ti te au d me h
    unfold extract_article at h
    cases hrun : extract_article_run env url p lang with
    | error e => rw [hrun] at h; cases h
    | ok r =>
      rw [hrun] at h
      subst h
      obtain ⟨x, hx⟩ := extract_article_run_success_text env url p lang u ti te au d me hrun
      rw [hx]
      exact no_newline_clean_text x

/-- C10 witness: the text of a concrete successful extraction contains no
newline. -/
theorem C10_witness : '\n' ∉ successText (extract_article envArticlePage "u" "zyte" "en") := by
  have h : extract_article envArticlePage "u" "zyte" "en" =
      ExtractionResult.success "u" none (List.replicate 101 'x') [] none "zyte" := by decide
  rw [h]
  exact C10_no_newline_in_output.2 envArticlePage "u" "zyte" "en" "u" none
    (List.replicate 101 'x') [] none "zyte" h

end NewspaperProxyScraper
